import Mathlib

/-!
Verification of the time-aggregation engine of the tracer repository.

All definitions below are shallow embeddings of the functions in
src/app/page.tsx (types `Category`, `Session`, `Goal`; functions
`overlapMs`, `buildChildMap`, `computeDirectSeconds`, `rollupSeconds`,
`isLeaf`, `computeChildGoalSum`, `computeRootGoalSum`, `rangeBounds`,
`formatHMS`, `sharePct`, `grandTotalVisible`, `directSecondsChart`).
JavaScript numbers holding millisecond timestamps are modelled as `Int`,
fractional second totals as `Rat`.  The ambient clock `Date.now()` read
inside `computeDirectSeconds` is made an explicit `now` parameter.
`Record<string, number>` objects are modelled as `String → Option Rat`
(absent key = `none`).  The unbounded JavaScript recursion in
`rollupSeconds` is modelled with an explicit fuel that counts call-stack
depth; exhausting the fuel (`none`) models a computation that never
produces a result (the recursion in the source has no cycle guard).
-/

namespace Tracer

/-- Category record of src/app/page.tsx.  The `excludeFromGoals` field is the
`exclude_from_goals` column declared in supabase-schema.sql and
src/lib/supabase.ts; the page code's own `Category` type omits it and no
function in page.tsx ever reads it. -/
structure Category where
  id : String
  name : String
  color : String
  goalPct : Option Int
  icon : Option String
  parentId : Option String
  excludeFromGoals : Bool
deriving DecidableEq

/-- Session record of src/app/page.tsx; `endTime` is the `end` field
(absent while the session is running). -/
structure Session where
  id : String
  categoryId : String
  start : Int
  endTime : Option Int
deriving DecidableEq

/-- Goal record of src/app/page.tsx (vision-board goal timer). -/
structure Goal where
  id : String
  text : String
  categoryId : String
  completed : Option Bool
  createdAt : Int
  totalSeconds : Option Int
  isActive : Option Bool
  lastStartTime : Option Int
deriving DecidableEq

/-- `Record<string, number>` objects holding second totals. -/
def DMap : Type := String → Option Rat

/-- The empty record. -/
def emptyDM : DMap := fun _ => none

/-- `m[k] = v` assignment on a record. -/
def setDM (m : DMap) (k : String) (v : Rat) : DMap :=
  fun j => if j = k then some v else m j

/-- `m[k] = (m[k] ?? 0) + v` accumulation on a record. -/
def addDM (m : DMap) (k : String) (v : Rat) : DMap :=
  setDM m k ((m k).getD 0 + v)

/-- overlapMs (page.tsx line 118): overlap of two intervals, never negative. -/
def overlapMs (aStart aEnd bStart bEnd : Int) : Int :=
  max 0 (min aEnd bEnd - max aStart bStart)

/-- Milliseconds a session contributes inside the window; a running session
(`endTime = none`) uses the ambient clock `now` (`s.end ?? Date.now()`). -/
def sessionMs (now ws we : Int) (s : Session) : Int :=
  overlapMs s.start (s.endTime.getD now) ws we

/-- `g.isActive && g.lastStartTime ? Math.floor((Date.now() - g.lastStartTime)/1000) : 0`
(page.tsx lines 155-157); JavaScript truthiness makes `lastStartTime = 0` fall
to the `0` branch. -/
def goalElapsed (now : Int) (g : Goal) : Int :=
  match g.isActive, g.lastStartTime with
  | some true, some t => if t = 0 then 0 else (now - t).fdiv 1000
  | _, _ => 0

/-- `(g.totalSeconds || 0) + currentElapsed` (page.tsx line 158). -/
def goalTotal (now : Int) (g : Goal) : Int :=
  g.totalSeconds.getD 0 + goalElapsed now g

/-- One step of the session loop of computeDirectSeconds (lines 145-149). -/
def sessStep (now ws we : Int) (m : DMap) (s : Session) : DMap :=
  let ms := sessionMs now ws we s
  if 0 < ms then addDM m s.categoryId ((ms : Rat) / 1000) else m

/-- One step of the goal loop of computeDirectSeconds (lines 153-163). -/
def goalStep (now : Int) (m : DMap) (g : Goal) : DMap :=
  let tot := goalTotal now g
  if 0 < tot then addDM m g.categoryId (tot : Rat) else m

/-- computeDirectSeconds (page.tsx lines 136-167) with the ambient clock
`Date.now()` passed explicitly as `now`.  An `undefined` goals argument
behaves like the empty list. -/
def computeDirectSeconds (sessions : List Session) (ws we now : Int)
    (goals : List Goal) : DMap :=
  goals.foldl (goalStep now) (sessions.foldl (sessStep now ws we) emptyDM)

/-- The record key used by buildChildMap: `c.parentId ?? "__root__"`. -/
def childKey (c : Category) : String := c.parentId.getD "__root__"

/-- buildChildMap (page.tsx lines 125-133) read at key `k`: the ids of the
categories whose parent key is `k`, in snapshot order. -/
def childMap (cats : List Category) (k : String) : List String :=
  (cats.filter (fun c => decide (childKey c = k))).map (fun c => c.id)

/-- isLeaf (page.tsx line 191): no category names `id` as its parent. -/
def isLeaf (cats : List Category) (id : String) : Bool :=
  ! cats.any (fun c => decide (c.parentId = some id))

/-- The `for (const k of kids) total += dfs(k)` loop inside rollupSeconds,
parameterised by the recursive call. -/
def dfsKids (f : String → DMap → Option (DMap × Rat)) :
    List String → DMap → Rat → Option (DMap × Rat)
  | [], memo, acc => some (memo, acc)
  | k :: ks, memo, acc =>
    match f k memo with
    | none => none
    | some (m, v) => dfsKids f ks m (acc + v)

/-- The inner `dfs` of rollupSeconds (page.tsx lines 178-185).  The fuel
counts call-stack depth: the source recursion has no cycle guard, so `none`
models a call chain that never returns.  The memo entry for `id` is written
only after all children have been processed, exactly as in the source. -/
def dfs (cm : String → List String) (direct : DMap) :
    Nat → String → DMap → Option (DMap × Rat)
  | 0, _, _ => none
  | fuel + 1, id, memo =>
    match memo id with
    | some v => some (memo, v)
    | none =>
      match dfsKids (dfs cm direct fuel) (cm id) memo ((direct id).getD 0) with
      | none => none
      | some (m, t) => some (setDM m id t, t)

/-- `ids.forEach(id => dfs(id))` (page.tsx line 187), threading the memo. -/
def runAll (cm : String → List String) (direct : DMap) (fuel : Nat) :
    List String → DMap → Option DMap
  | [], memo => some memo
  | id :: ids, memo =>
    match dfs cm direct fuel id memo with
    | none => none
    | some (m, _) => runAll cm direct fuel ids m

/-- First-occurrence deduplication, as `new Set(array)` iteration order. -/
def firstDedupAux (seen : List String) : List String → List String
  | [] => []
  | x :: xs =>
    if x ∈ seen then firstDedupAux seen xs else x :: firstDedupAux (x :: seen) xs

/-- `new Set(categories.map(c => c.id))` in iteration order. -/
def firstDedup (l : List String) : List String := firstDedupAux [] l

/-- rollupSeconds (page.tsx lines 170-189) run with an explicit stack bound. -/
def rollupSecondsFuel (fuel : Nat) (cats : List Category) (direct : DMap) :
    Option DMap :=
  runAll (childMap cats) direct fuel (firstDedup (cats.map (fun c => c.id)))
    emptyDM

/-- rollupSeconds with the canonical bound: on an acyclic snapshot the source
recursion never nests deeper than the number of categories plus one. -/
def rollupSeconds (cats : List Category) (direct : DMap) : Option DMap :=
  rollupSecondsFuel (cats.length + 1) cats direct

/-- Acyclicity of the parent graph of a snapshot, stated as the existence of a
topological rank that strictly drops from any category to its parent key and
is bounded by the snapshot size on category ids. -/
def AcyclicCats (cats : List Category) : Prop :=
  ∃ rank : String → Nat,
    (∀ c ∈ cats, rank c.id ≤ cats.length) ∧
    (∀ c ∈ cats, rank c.id < rank (childKey c))

/-- The `{ id?, goal }` override passed to the goal-sum helpers. -/
structure GoalOverride where
  id : Option String
  goal : Option Int
deriving DecidableEq

/-- `(override && override.id === c.id) ? (override.goal ?? 0) : (c.goalPct ?? 0)`
(page.tsx lines 303-305 and 324-326). -/
def overrideVal (ovr : Option GoalOverride) (c : Category) : Int :=
  match ovr with
  | some o => if o.id = some c.id then o.goal.getD 0 else c.goalPct.getD 0
  | none => c.goalPct.getD 0

/-- computeChildGoalSum (page.tsx lines 299-318).  JavaScript truthiness of
`override.id` treats the empty string like a missing id. -/
def computeChildGoalSum (cats : List Category) (parentId : String)
    (ovr : Option GoalOverride) : Int :=
  let base := cats.foldl
    (fun sum c => if c.parentId = some parentId then sum + overrideVal ovr c else sum) 0
  let extraMissing :=
    match ovr with
    | some o =>
      match o.id with
      | some oid =>
        if oid ≠ "" ∧ ¬ cats.any (fun c => decide (c.id = oid)) then o.goal.getD 0 else 0
      | none => 0
    | none => 0
  let extraNew :=
    match ovr with
    | some o =>
      match o.id with
      | none => o.goal.getD 0
      | some oid => if oid = "" then o.goal.getD 0 else 0
    | none => 0
  base + extraMissing + extraNew

/-- computeRootGoalSum (page.tsx lines 320-333); `c.parentId == null` matches
both null and undefined, i.e. `parentId = none`. -/
def computeRootGoalSum (cats : List Category) (ovr : Option GoalOverride) : Int :=
  let base := cats.foldl
    (fun sum c => if c.parentId = none then sum + overrideVal ovr c else sum) 0
  let extraNew :=
    match ovr with
    | some o =>
      match o.id with
      | none => o.goal.getD 0
      | some oid => if oid = "" then o.goal.getD 0 else 0
    | none => 0
  let extraMissing :=
    match ovr with
    | some o =>
      match o.id with
      | some oid =>
        if oid ≠ "" ∧ ¬ cats.any (fun c => decide (c.id = oid ∧ c.parentId = none))
        then o.goal.getD 0 else 0
      | none => 0
    | none => 0
  base + extraNew + extraMissing

/-- The editor-modal pairing (page.tsx lines 2618-2620): the computed sibling
sum at root level together with `over = sum > 100`. -/
def rootGoalCheck (cats : List Category) (ovr : Option GoalOverride) : Int × Bool :=
  (computeRootGoalSum cats ovr, decide (100 < computeRootGoalSum cats ovr))

/-- rangeBounds (page.tsx lines 101-116).  The calendar helpers startOfDay,
startOfWeek, startOfMonth and startOfYear perform local-time `Date`
arithmetic and are passed as abstract parameters; `Date.now()` is the
explicit `now`.  The switch ends in `case "All": default:`, so every string
outside the four named cases yields the All window. -/
def rangeBounds (sod sow som soy : Int → Int) (range : String) (now : Int) :
    Int × Int :=
  if range = "Today" then (sod now, now)
  else if range = "Week" then (sow now, now)
  else if range = "Month" then (som now, now)
  else if range = "Year" then (soy now, now)
  else (0, now)

/-- grandTotalVisible (page.tsx lines 1644-1647). -/
def grandTotalVisible (visible : List Category) (rolled : DMap) : Rat :=
  visible.foldl (fun sum c => sum + (rolled c.id).getD 0) 0

/-- `Math.round`: round half toward positive infinity. -/
def jsRound (x : Rat) : Int := ⌊x + 1 / 2⌋

/-- sharePct (page.tsx lines 2215-2218), with the visible grand total and the
rolled mapping it closes over passed explicitly. -/
def sharePct (total : Rat) (rolled : DMap) (catId : String) : Int :=
  if total = 0 then 0 else jsRound ((rolled catId).getD 0 / total * 100)

/-- directSecondsChart (page.tsx lines 1624-1627): while hovering, the frozen
instant replaces the window end handed to computeDirectSeconds; the ambient
clock `now` is untouched.  A frozen instant of `0` is falsy in JavaScript and
falls back to the window end. -/
def directSecondsChart (chartHover : Bool) (hoverNow : Option Int)
    (sessions : List Session) (ws we now : Int) (goals : List Goal) : DMap :=
  let endForChart :=
    if chartHover then
      match hoverNow with
      | some h => if h = 0 then we else h
      | none => we
    else we
  computeDirectSeconds sessions ws endForChart now goals

/-- Decimal digit characters. -/
def digitChar10 (d : Nat) : Char :=
  if d = 0 then '0' else if d = 1 then '1' else if d = 2 then '2'
  else if d = 3 then '3' else if d = 4 then '4' else if d = 5 then '5'
  else if d = 6 then '6' else if d = 7 then '7' else if d = 8 then '8' else '9'

/-- Decimal digit list of a natural number (fuelled, most significant first). -/
def natStrCore : Nat → Nat → List Char
  | 0, _ => []
  | fuel + 1, n =>
    if n < 10 then [digitChar10 n]
    else natStrCore fuel (n / 10) ++ [digitChar10 (n % 10)]

/-- Decimal rendering of a natural number, as JavaScript template strings do. -/
def natStr (n : Nat) : String := String.mk (natStrCore (n + 1) n)

/-- A count with a unit label, pluralized unless the count is exactly one:
the template `{n} yr{n === 1 ? "" : "s"}` of formatHMS. -/
def pluralUnit (n : Nat) (unit : String) : String :=
  natStr n ++ " " ++ unit ++ (if n = 1 then "" else "s")

/-- `String.prototype.includes`: substring test. -/
def strContains (s pat : String) : Bool :=
  s.data.tails.any (fun t => pat.data.isPrefixOf t)

/-- The parts array built by formatHMS (page.tsx lines 58-74) from the already
computed unit counts, embedded clause by clause, including the
`parts[0]?.includes` tests of the second-part block. -/
def partsHMS (years days hours mins secs : Nat) : List String :=
  let p1 : List String := if years ≠ 0 then [pluralUnit years "yr"] else []
  let p2 := if days ≠ 0 then p1 ++ [pluralUnit days "day"] else p1
  let p3 := if p2.isEmpty ∧ hours ≠ 0 then p2 ++ [pluralUnit hours "hr"] else p2
  let p4 :=
    if p3.isEmpty ∧ hours = 0 ∧ mins ≠ 0 then p3 ++ [natStr mins ++ " min"] else p3
  match p4.head? with
  | some h0 =>
    if strContains h0 "yr" ∨ strContains h0 "day" then
      if days ≠ 0 ∧ ¬ strContains h0 "day" then p4 ++ [pluralUnit days "day"]
      else if hours ≠ 0 then p4 ++ [pluralUnit hours "hr"]
      else p4
    else if hours ≠ 0 then p4 ++ [natStr mins ++ " min"]
    else if mins ≠ 0 then p4 ++ [natStr secs ++ " sec"]
    else p4 ++ [natStr secs ++ " sec"]
  | none =>
    if hours ≠ 0 then p4 ++ [natStr mins ++ " min"]
    else if mins ≠ 0 then p4 ++ [natStr secs ++ " sec"]
    else p4 ++ [natStr secs ++ " sec"]

/-- formatHMS (page.tsx lines 45-76): clamp and floor the input, split it into
unit counts exactly as the source's repeated subtraction does, then build the
parts array and join with spaces. -/
def formatHMS (totalSeconds : Rat) : String :=
  let s : Nat := (max 0 ⌊totalSeconds⌋).toNat
  let years := s / 31536000
  let sA := s - years * 31536000
  let days := sA / 86400
  let sB := sA - days * 86400
  let hours := sB / 3600
  let sC := sB - hours * 3600
  String.intercalate " " (partsHMS years days hours (sC / 60) (sC % 60))

/-- The unit-selection table partsHMS actually implements, with the substring
tests resolved away: at least a year shows years then, when the leftover days
are nonzero, the day component twice, otherwise hours when nonzero; at least a
day shows days then hours when nonzero; at least an hour shows hours then
minutes; at least a minute shows minutes then seconds; otherwise seconds.
Only the yr, day and hr labels are pluralized; min and sec stay singular. -/
def partsSpec (years days hours mins secs : Nat) : List String :=
  if years ≠ 0 then
    [pluralUnit years "yr"] ++
      (if days ≠ 0 then [pluralUnit days "day", pluralUnit days "day"]
       else if hours ≠ 0 then [pluralUnit hours "hr"] else [])
  else if days ≠ 0 then
    [pluralUnit days "day"] ++ (if hours ≠ 0 then [pluralUnit hours "hr"] else [])
  else if hours ≠ 0 then [pluralUnit hours "hr", natStr mins ++ " min"]
  else if mins ≠ 0 then [natStr mins ++ " min", natStr secs ++ " sec"]
  else [natStr secs ++ " sec"]

/-- formatHMS with the corrected unit-selection table in place of the parts
logic; the arithmetic decomposition is identical. -/
def formatSpec (totalSeconds : Rat) : String :=
  let s : Nat := (max 0 ⌊totalSeconds⌋).toNat
  let years := s / 31536000
  let sA := s - years * 31536000
  let days := sA / 86400
  let sB := sA - days * 86400
  let hours := sB / 3600
  let sC := sB - hours * 3600
  String.intercalate " " (partsSpec years days hours (sC / 60) (sC % 60))

/-- Cyclic snapshot of the cycle test: category A has parent B. -/
def catCycleA : Category :=
  ⟨"A", "A", "#000", none, none, some "B", false⟩

/-- Cyclic snapshot of the cycle test: category B has parent A. -/
def catCycleB : Category :=
  ⟨"B", "B", "#000", none, none, some "A", false⟩

/-- The cyclic snapshot `{A parent=B, B parent=A}`. -/
def cycleCats : List Category := [catCycleA, catCycleB]

/-- Root category A with goal 60 of the validator example. -/
def catGoalA : Category := ⟨"A", "A", "#000", some 60, none, none, false⟩

/-- Root category B with goal 40 of the validator example. -/
def catGoalB : Category := ⟨"B", "B", "#000", some 40, none, none, false⟩

/-- The `{A: 60, B: 40}` root snapshot of the validator example. -/
def goalCatsAB : List Category := [catGoalA, catGoalB]

/-- Root category with goal 60 whose exclude-from-goals flag is set. -/
def catExclA : Category := ⟨"A", "A", "#000", some 60, none, none, true⟩

/-- Snapshot pairing the excluded A with the included B. -/
def exclCats : List Category := [catExclA, catGoalB]

/-- Parent category of the two-child rollup example. -/
def catParentP : Category := ⟨"p", "p", "#000", none, none, none, false⟩

/-- First child of the two-child rollup example. -/
def catChild1 : Category := ⟨"c1", "c1", "#000", none, none, some "p", false⟩

/-- Second child of the two-child rollup example. -/
def catChild2 : Category := ⟨"c2", "c2", "#000", none, none, some "p", false⟩

/-- The parent-with-two-children snapshot. -/
def pcCats : List Category := [catParentP, catChild1, catChild2]

/-- Direct seconds 5, 7, 11 for p, c1, c2. -/
def pcDirect : DMap :=
  fun k => if k = "p" then some 5 else if k = "c1" then some 7
    else if k = "c2" then some 11 else none

/-- A still-running session on category c started at instant 0. -/
def sessRunning : Session := ⟨"s1", "c", 0, none⟩

/-- A completed session on category c covering [0, 80000). -/
def sessDone : Session := ⟨"s2", "c", 0, some 80000⟩

/-- Memo-table invariant of the rollup dfs: every entry already written lists
all its children in the table and equals its direct seconds plus the sum of
its children's entries. -/
def MemoInv (cm : String → List String) (direct : DMap) (memo : DMap) : Prop :=
  ∀ j v, memo j = some v →
    (∀ k ∈ cm j, (memo k).isSome = true) ∧
    v = (direct j).getD 0 + ((cm j).map (fun k => (memo k).getD 0)).sum

/-- Memo tables only gain entries during the rollup; existing entries never
change. -/
def MemoLe (m1 m2 : DMap) : Prop := ∀ j v, m1 j = some v → m2 j = some v

/-- A topological rank for the parent-with-two-children snapshot. -/
def rankPC : String → Nat :=
  fun s => if s = "p" then 1 else if s = "__root__" then 2 else 0

/-- A rolled mapping with totals 10 and 20 on A and B. -/
def rolledEx : DMap :=
  fun k => if k = "A" then some 10 else if k = "B" then some 20 else none

/-- Two completed sessions on category c1 totalling 30 seconds in [0,60000). -/
def dSessions : List Session :=
  [⟨"s1", "c1", 0, some 10000⟩, ⟨"s2", "c1", 20000, some 40000⟩]

/-- One inactive goal timer on category c1 with 20 accumulated seconds. -/
def dGoals : List Goal :=
  [⟨"g1", "goal", "c1", none, 0, some 20, some false, none⟩]

/-- Sessions for the absence example: the session on c lies outside the
window [0,100), the session on d lies inside it. -/
def wSessions : List Session :=
  [⟨"s1", "c", 200, some 300⟩, ⟨"s2", "d", 0, some 50⟩]

/-- Goal timers for the absence example: the timer on c has a zero total. -/
def wGoals : List Goal :=
  [⟨"g1", "goal", "c", none, 0, some 0, some false, none⟩]

/-! ## Theorems -/

theorem childMap_cycle_A : childMap cycleCats "A" = ["B"] := by decide

theorem childMap_cycle_B : childMap cycleCats "B" = ["A"] := by decide

theorem dfs_cycle_none (direct : DMap) :
    ∀ fuel (memo : DMap), memo "A" = none → memo "B" = none →
      dfs (childMap cycleCats) direct fuel "A" memo = none ∧
      dfs (childMap cycleCats) direct fuel "B" memo = none := by
  intro fuel
  induction fuel with
  | zero => intro memo _ _; exact ⟨rfl, rfl⟩
  | succ fuel ih =>
    intro memo hA hB
    constructor
    · show dfs _ _ (fuel + 1) "A" memo = none
      rw [dfs, hA, childMap_cycle_A]
      have hBnone := (ih memo hA hB).2
      rw [dfsKids, hBnone]
    · show dfs _ _ (fuel + 1) "B" memo = none
      rw [dfs, hB, childMap_cycle_B]
      have hAnone := (ih memo hA hB).1
      rw [dfsKids, hAnone]

/-- C1: on the cyclic snapshot `{A parent=B, B parent=A}` the source
rollupSeconds never terminates with any result: for every stack-depth bound
and every direct-seconds mapping the fuelled evaluation runs out of stack
without producing anything.  The code has no visited-in-progress guard and no
CycleDetected fault at all; it recurses until the JavaScript stack overflows,
contradicting the spec's hardening requirement. -/
theorem rollup_cycle_diverges :
    ∀ (fuel : Nat) (direct : DMap),
      rollupSecondsFuel fuel cycleCats direct = none := by
  intro fuel direct
  have h := (dfs_cycle_none direct fuel emptyDM rfl rfl).1
  show runAll _ _ _ (firstDedup (cycleCats.map (fun c => c.id))) emptyDM = none
  have hids : firstDedup (cycleCats.map (fun c => c.id)) = ["A", "B"] := by decide
  rw [hids, runAll, h]

/-- C1 witness at a concrete stack bound: even with fuel 1000 the cyclic
snapshot produces no result. -/
theorem rollup_cycle_diverges_witness :
    rollupSecondsFuel 1000 cycleCats emptyDM = none :=
  rollup_cycle_diverges 1000 emptyDM

/-- C3: the goal-sum validators of page.tsx ignore the exclude-from-goals
flag entirely.  With root category A (goal 60) marked excluded and root
category B being edited to 50, the claim expects the reported sum 50 (A
contributes nothing), but computeRootGoalSum reports 110: A's 60 is counted
although its flag is set.  The repository's own migration document for the
exclude_from_goals column states that excluded categories do not count toward
the 100% goal validation, so the page code contradicts the repository's
documentation. -/
theorem goalSum_counts_excluded :
    computeRootGoalSum exclCats (some ⟨some "B", some 50⟩) = 110 ∧
    catExclA.excludeFromGoals = true ∧ (110 : Int) ≠ 50 := by decide

/-- C7 counterexample: for root categories A (goal 60) and B (goal 40),
editing A to 70 makes computeRootGoalSum report 110, not the 100 the claim
states (and `over` is therefore true, not false). -/
theorem rootGoalSum_seventy_counterexample :
    computeRootGoalSum goalCatsAB (some ⟨some "A", some 70⟩) = 110 ∧
    (110 : Int) ≠ 100 := by decide

/-- C7 amended: the validator substitutes the candidate for the edited
category and reports `over = sum > 100`; with A: 60 and B: 40 at root,
editing A to 50 gives (90, false), editing A to 70 gives (110, true), and
editing A to 71 gives (111, true); in general the reported flag is true
exactly when the reported sum exceeds 100. -/
theorem rootGoalCheck_examples :
    rootGoalCheck goalCatsAB (some ⟨some "A", some 50⟩) = (90, false) ∧
    rootGoalCheck goalCatsAB (some ⟨some "A", some 70⟩) = (110, true) ∧
    rootGoalCheck goalCatsAB (some ⟨some "A", some 71⟩) = (111, true) ∧
    ∀ (cats : List Category) (ovr : Option GoalOverride),
      ((rootGoalCheck cats ovr).2 = true ↔ 100 < (rootGoalCheck cats ovr).1) := by
  refine ⟨by decide, by decide, by decide, ?_⟩
  intro cats ovr
  simp [rootGoalCheck]

/-- C9 counterexample: rangeBounds cannot fail.  Applied to the selector
"Bogus", which is outside the closed set, it returns the All window
`(0, now)` instead of an InvalidArgument fault (its codomain has no error
case at all: the switch ends in `case "All": default:`). -/
theorem rangeBounds_unknown_counterexample :
    rangeBounds id id id id "Bogus" 12345 = (0, 12345) ∧
    "Bogus" ∉ ["Today", "Week", "Month", "Year", "All"] := by decide

/-- C9 amended: for every reference instant, every selector outside
{Today, Week, Month, Year} — including "All" and any unknown string — is
normalized to the All window `(0, now)`; no error is raised. -/
theorem rangeBounds_unknown_normalizes
    (sod sow som soy : Int → Int) (range : String) (now : Int)
    (h : range ∉ ["Today", "Week", "Month", "Year"]) :
    rangeBounds sod sow som soy range now = (0, now) := by
  simp only [List.mem_cons, List.not_mem_nil, or_false, not_or] at h
  obtain ⟨h1, h2, h3, h4⟩ := h
  simp [rangeBounds, h1, h2, h3, h4]

/-- C9 witness: the unknown selector "Nope" at instant 99 is normalized to
the All window. -/
theorem rangeBounds_unknown_normalizes_witness :
    rangeBounds id id id id "Nope" 99 = (0, 99) :=
  rangeBounds_unknown_normalizes id id id id "Nope" 99 (by decide)

/-- C5 counterexample.  First conjunct: in the hover-freeze chart path the
frozen instant 30000 is substituted for the window end, not for `now`, so the
result differs from computeDirectSeconds with `now` replaced by the freeze
instant and the window untouched (the completed session [0,80000) inside the
window [0,100000) yields 30 seconds in the code but 80 under the claim's
semantics).  Second conjunct: computeDirectSeconds is not a function of the
claim's explicit inputs alone — with identical sessions, window and goals, a
running session makes the result track the ambient clock `Date.now()`. -/
theorem freeze_semantics_counterexample :
    (directSecondsChart true (some 30000) [sessDone] 0 100000 50000 []) "c" ≠
      (computeDirectSeconds [sessDone] 0 100000 30000 []) "c" ∧
    (computeDirectSeconds [sessRunning] 0 100000 10000 []) "c" ≠
      (computeDirectSeconds [sessRunning] 0 100000 20000 []) "c" := by
  have h1 : (directSecondsChart true (some 30000) [sessDone] 0 100000 50000 []) "c"
      = some 30 := by
    simp [directSecondsChart, computeDirectSeconds, sessStep, goalStep, addDM,
      setDM, emptyDM, sessionMs, overlapMs, sessDone]
    norm_num
  have h2 : (computeDirectSeconds [sessDone] 0 100000 30000 []) "c" = some 80 := by
    simp [computeDirectSeconds, sessStep, goalStep, addDM, setDM, emptyDM,
      sessionMs, overlapMs, sessDone]
    norm_num
  have h3 : (computeDirectSeconds [sessRunning] 0 100000 10000 []) "c"
      = some 10 := by
    simp [computeDirectSeconds, sessStep, goalStep, addDM, setDM, emptyDM,
      sessionMs, overlapMs, sessRunning]
    norm_num
  have h4 : (computeDirectSeconds [sessRunning] 0 100000 20000 []) "c"
      = some 20 := by
    simp [computeDirectSeconds, sessStep, goalStep, addDM, setDM, emptyDM,
      sessionMs, overlapMs, sessRunning]
    norm_num
  rw [h1, h2, h3, h4]
  refine ⟨by simp, by simp⟩

/-- C5 amended: computeDirectSeconds is deterministic once the ambient clock
instant is included among its inputs — identical sessions, window, goals and
ambient instant give identical mappings — and the hover-freeze chart path
substitutes a nonzero freeze instant for the window end while the ambient
instant keeps driving the live-elapsed computation. -/
theorem computeDirect_deterministic
    (s1 s2 : List Session) (ws1 ws2 we1 we2 now1 now2 : Int)
    (g1 g2 : List Goal) (hs : s1 = s2) (hws : ws1 = ws2) (hwe : we1 = we2)
    (hnow : now1 = now2) (hg : g1 = g2) :
    computeDirectSeconds s1 ws1 we1 now1 g1 =
      computeDirectSeconds s2 ws2 we2 now2 g2 ∧
    ∀ f : Int, f ≠ 0 →
      directSecondsChart true (some f) s1 ws1 we1 now1 g1 =
        computeDirectSeconds s1 ws1 f now1 g1 := by
  subst hs hws hwe hnow hg
  refine ⟨rfl, ?_⟩
  intro f hf
  simp [directSecondsChart, hf]

/-- C5 witness: determinism and the freeze-as-window-end path at concrete
inputs. -/
theorem computeDirect_deterministic_witness :
    computeDirectSeconds [sessRunning] 0 100000 10000 [] =
      computeDirectSeconds [sessRunning] 0 100000 10000 [] ∧
    directSecondsChart true (some 30000) [sessRunning] 0 100000 10000 [] =
      computeDirectSeconds [sessRunning] 0 30000 10000 [] :=
  ⟨(computeDirect_deterministic [sessRunning] [sessRunning] 0 0 100000 100000
      10000 10000 [] [] rfl rfl rfl rfl rfl).1,
    (computeDirect_deterministic [sessRunning] [sessRunning] 0 0 100000 100000
      10000 10000 [] [] rfl rfl rfl rfl rfl).2 30000 (by decide)⟩

theorem overlapMs_nonneg (a b c d : Int) : 0 ≤ overlapMs a b c d :=
  le_max_left 0 _

theorem sessionMs_nonneg (now ws we : Int) (s : Session) :
    0 ≤ sessionMs now ws we s :=
  overlapMs_nonneg _ _ _ _

theorem addDM_getD (m : DMap) (k : String) (v : Rat) (j : String) :
    ((addDM m k v) j).getD 0 = (m j).getD 0 + if j = k then v else 0 := by
  by_cases h : j = k
  · subst h; simp [addDM, setDM]
  · simp [addDM, setDM, h]

theorem addDM_ne (m : DMap) (k : String) (v : Rat) (j : String) (h : j ≠ k) :
    (addDM m k v) j = m j := by
  simp [addDM, setDM, h]

theorem sessStep_getD (now ws we : Int) (m : DMap) (s : Session) (c : String) :
    ((sessStep now ws we m s) c).getD 0 =
      (m c).getD 0 +
        (if s.categoryId = c then (sessionMs now ws we s : Rat) / 1000 else 0) := by
  by_cases hms : 0 < sessionMs now ws we s
  · rw [sessStep]
    simp only [hms, if_true, addDM_getD]
    by_cases hc : s.categoryId = c
    · rw [if_pos hc.symm, if_pos hc]
    · rw [if_neg (Ne.symm hc), if_neg hc]
  · have h0 : sessionMs now ws we s = 0 :=
      le_antisymm (not_lt.mp hms) (sessionMs_nonneg now ws we s)
    rw [sessStep]
    simp [hms, h0]

theorem sess_foldl_getD (now ws we : Int) :
    ∀ (l : List Session) (m : DMap) (c : String),
      ((l.foldl (sessStep now ws we) m) c).getD 0 =
        (m c).getD 0 +
          (l.map (fun s =>
            if s.categoryId = c then (sessionMs now ws we s : Rat) / 1000 else 0)).sum := by
  intro l
  induction l with
  | nil => intro m c; simp
  | cons s l ih =>
    intro m c
    simp only [List.foldl_cons, List.map_cons, List.sum_cons]
    rw [ih, sessStep_getD]
    ring

theorem goalStep_getD (now : Int) (m : DMap) (g : Goal) (c : String) :
    ((goalStep now m g) c).getD 0 =
      (m c).getD 0 +
        (if g.categoryId = c then
          (if 0 < goalTotal now g then (goalTotal now g : Rat) else 0) else 0) := by
  by_cases htot : 0 < goalTotal now g
  · rw [goalStep]
    simp only [htot, if_true, addDM_getD]
    by_cases hc : g.categoryId = c
    · rw [if_pos hc.symm, if_pos hc]
    · rw [if_neg (Ne.symm hc), if_neg hc]
  · rw [goalStep]
    simp [htot]

theorem goal_foldl_getD (now : Int) :
    ∀ (l : List Goal) (m : DMap) (c : String),
      ((l.foldl (goalStep now) m) c).getD 0 =
        (m c).getD 0 +
          (l.map (fun g =>
            if g.categoryId = c then
              (if 0 < goalTotal now g then (goalTotal now g : Rat) else 0)
            else 0)).sum := by
  intro l
  induction l with
  | nil => intro m c; simp
  | cons g l ih =>
    intro m c
    simp only [List.foldl_cons, List.map_cons, List.sum_cons]
    rw [ih, goalStep_getD]
    ring

/-- C2: for every input, computeDirectSeconds credits each category with the
sum over its sessions of `overlap(start, end ?? now, windowStart, windowEnd)
/ 1000` seconds, plus, for each of its goal timers whose total
`accumulatedSeconds + (active ? floor((now - lastResume)/1000) : 0)` is
positive, that whole total — the goal-timer seconds are not filtered by the
window.  The hypothesis states the data-model invariant that an active timer
carries a (nonzero) last-resume instant, which the claim's formula
presupposes. -/
theorem computeDirect_characterization (sessions : List Session)
    (goals : List Goal) (ws we now : Int) (c : String)
    (hwf : ∀ g ∈ goals, g.isActive = some true →
      ∃ t, g.lastStartTime = some t ∧ t ≠ 0) :
    ((computeDirectSeconds sessions ws we now goals) c).getD 0 =
      (sessions.map (fun s =>
        if s.categoryId = c then
          (overlapMs s.start (s.endTime.getD now) ws we : Rat) / 1000
        else 0)).sum +
      (goals.map (fun g =>
        if g.categoryId = c then
          (if 0 < g.totalSeconds.getD 0 +
              (if g.isActive = some true then
                (now - g.lastStartTime.getD 0).fdiv 1000 else 0) then
            ((g.totalSeconds.getD 0 +
              (if g.isActive = some true then
                (now - g.lastStartTime.getD 0).fdiv 1000 else 0) : Int) : Rat)
          else 0)
        else 0)).sum := by
  rw [computeDirectSeconds, goal_foldl_getD, sess_foldl_getD]
  have hempty : ((emptyDM c).getD 0 : Rat) = 0 := rfl
  rw [hempty, zero_add]
  congr 1
  refine congrArg List.sum (List.map_congr_left ?_)
  intro g hg
  have htot : goalTotal now g =
      g.totalSeconds.getD 0 +
        (if g.isActive = some true then
          (now - g.lastStartTime.getD 0).fdiv 1000 else 0) := by
    rw [goalTotal, goalElapsed]
    congr 1
    cases hact : g.isActive with
    | none => simp [hact]
    | some b =>
      cases b with
      | false => simp [hact]
      | true =>
        obtain ⟨t, ht, htne⟩ := hwf g hg hact
        simp [hact, ht, htne]
  rw [htot]

/-- C2 witness: two completed sessions of 10 and 20 seconds inside the window
plus an inactive timer with 20 accumulated seconds credit category c1
according to the characterization. -/
theorem computeDirect_characterization_witness :
    ((computeDirectSeconds dSessions 0 60000 60000 dGoals) "c1").getD 0 =
      (dSessions.map (fun s =>
        if s.categoryId = "c1" then
          (overlapMs s.start (s.endTime.getD 60000) 0 60000 : Rat) / 1000
        else 0)).sum +
      (dGoals.map (fun g =>
        if g.categoryId = "c1" then
          (if 0 < g.totalSeconds.getD 0 +
              (if g.isActive = some true then
                (60000 - g.lastStartTime.getD 0).fdiv 1000 else 0) then
            ((g.totalSeconds.getD 0 +
              (if g.isActive = some true then
                (60000 - g.lastStartTime.getD 0).fdiv 1000 else 0) : Int) : Rat)
          else 0)
        else 0)).sum :=
  computeDirect_characterization dSessions dGoals 0 60000 60000 "c1"
    (by decide)

theorem sessStep_none (now ws we : Int) (m : DMap) (s : Session) (c : String)
    (hm : m c = none) (hs : s.categoryId = c → sessionMs now ws we s = 0) :
    (sessStep now ws we m s) c = none := by
  by_cases hc : s.categoryId = c
  · have h0 := hs hc
    rw [sessStep]
    simp [h0, hm]
  · by_cases hms : 0 < sessionMs now ws we s
    · rw [sessStep]
      simp only [hms, if_true]
      rw [addDM_ne m _ _ c (Ne.symm hc)]
      exact hm
    · rw [sessStep]; simp [hms, hm]

theorem goalStep_none (now : Int) (m : DMap) (g : Goal) (c : String)
    (hm : m c = none) (hg : g.categoryId = c → goalTotal now g ≤ 0) :
    (goalStep now m g) c = none := by
  by_cases hc : g.categoryId = c
  · have h0 := hg hc
    rw [goalStep]
    simp [not_lt.mpr h0, hm]
  · by_cases htot : 0 < goalTotal now g
    · rw [goalStep]
      simp only [htot, if_true]
      rw [addDM_ne m _ _ c (Ne.symm hc)]
      exact hm
    · rw [goalStep]; simp [htot, hm]

theorem sess_foldl_none (now ws we : Int) :
    ∀ (l : List Session) (m : DMap) (c : String), m c = none →
      (∀ s ∈ l, s.categoryId = c → sessionMs now ws we s = 0) →
      (l.foldl (sessStep now ws we) m) c = none := by
  intro l
  induction l with
  | nil => intro m c hm _; exact hm
  | cons s l ih =>
    intro m c hm hl
    simp only [List.foldl_cons]
    exact ih _ c (sessStep_none now ws we m s c hm (hl s (by simp)))
      (fun x hx => hl x (by simp [hx]))

theorem goal_foldl_none (now : Int) :
    ∀ (l : List Goal) (m : DMap) (c : String), m c = none →
      (∀ g ∈ l, g.categoryId = c → goalTotal now g ≤ 0) →
      (l.foldl (goalStep now) m) c = none := by
  intro l
  induction l with
  | nil => intro m c hm _; exact hm
  | cons g l ih =>
    intro m c hm hl
    simp only [List.foldl_cons]
    exact ih _ c (goalStep_none now m g c hm (hl g (by simp)))
      (fun x hx => hl x (by simp [hx]))

theorem addDM_pos (m : DMap) (k : String) (v : Rat)
    (hm : ∀ j w, m j = some w → 0 < w) (hv : 0 < v) :
    ∀ j w, (addDM m k v) j = some w → 0 < w := by
  intro j w hj
  by_cases h : j = k
  · subst h
    have hj2 : some ((m j).getD 0 + v) = some w := by rw [← hj]; simp [addDM, setDM]
    have hw : (m j).getD 0 + v = w := Option.some.inj hj2
    cases hmk : m j with
    | none => rw [hmk] at hw; simp at hw; linarith
    | some u =>
      rw [hmk] at hw
      have hu := hm j u hmk
      simp at hw
      linarith
  · rw [addDM_ne m k v j h] at hj
    exact hm j w hj

theorem sessStep_pos (now ws we : Int) (m : DMap) (s : Session)
    (hm : ∀ j w, m j = some w → 0 < w) :
    ∀ j w, (sessStep now ws we m s) j = some w → 0 < w := by
  by_cases hms : 0 < sessionMs now ws we s
  · rw [sessStep]
    simp only [hms, if_true]
    refine addDM_pos m _ _ hm ?_
    have : (0 : Rat) < (sessionMs now ws we s : Rat) := by exact_mod_cast hms
    positivity
  · rw [sessStep]; simp only [hms, if_false]; exact hm

theorem goalStep_pos (now : Int) (m : DMap) (g : Goal)
    (hm : ∀ j w, m j = some w → 0 < w) :
    ∀ j w, (goalStep now m g) j = some w → 0 < w := by
  by_cases htot : 0 < goalTotal now g
  · rw [goalStep]
    simp only [htot, if_true]
    refine addDM_pos m _ _ hm ?_
    exact_mod_cast htot
  · rw [goalStep]; simp only [htot, if_false]; exact hm

theorem sess_foldl_pos (now ws we : Int) :
    ∀ (l : List Session) (m : DMap),
      (∀ j w, m j = some w → 0 < w) →
      ∀ j w, (l.foldl (sessStep now ws we) m) j = some w → 0 < w := by
  intro l
  induction l with
  | nil => intro m hm; exact hm
  | cons s l ih =>
    intro m hm
    simp only [List.foldl_cons]
    exact ih _ (sessStep_pos now ws we m s hm)

theorem goal_foldl_pos (now : Int) :
    ∀ (l : List Goal) (m : DMap),
      (∀ j w, m j = some w → 0 < w) →
      ∀ j w, (l.foldl (goalStep now) m) j = some w → 0 < w := by
  intro l
  induction l with
  | nil => intro m hm; exact hm
  | cons g l ih =>
    intro m hm
    simp only [List.foldl_cons]
    exact ih _ (goalStep_pos now m g hm)

/-- C10: every value stored in the mapping returned by computeDirectSeconds is
strictly positive, and a category whose sessions all have zero overlap with
the window and whose goal timers all have non-positive totals is absent from
the mapping (never present as zero): the loops only write a key when the
session contributes a positive overlap or the goal total is positive. -/
theorem computeDirect_positive (sessions : List Session) (goals : List Goal)
    (ws we now : Int) (c : String)
    (h1 : ∀ s ∈ sessions, s.categoryId = c → sessionMs now ws we s = 0)
    (h2 : ∀ g ∈ goals, g.categoryId = c → goalTotal now g ≤ 0) :
    (∀ k v, (computeDirectSeconds sessions ws we now goals) k = some v → 0 < v) ∧
    (computeDirectSeconds sessions ws we now goals) c = none := by
  constructor
  · rw [computeDirectSeconds]
    refine goal_foldl_pos now goals _ ?_
    refine sess_foldl_pos now ws we sessions emptyDM ?_
    intro j w hj
    exact absurd hj (by simp [emptyDM])
  · rw [computeDirectSeconds]
    refine goal_foldl_none now goals _ c ?_ h2
    exact sess_foldl_none now ws we sessions emptyDM c rfl h1

/-- C10 witness: with the c-session outside the window and a zero-total timer
on c, the returned mapping has no entry for c. -/
theorem computeDirect_positive_witness :
    (computeDirectSeconds wSessions 0 100 0 wGoals) "c" = none :=
  (computeDirect_positive wSessions wGoals 0 100 0 "c" (by decide) (by decide)).2

theorem jsRound_le (x : Rat) : (jsRound x : Rat) ≤ x + 1 / 2 :=
  Int.floor_le _

theorem le_jsRound (x : Rat) : x - 1 / 2 ≤ (jsRound x : Rat) := by
  have h := Int.lt_floor_add_one (x + 1 / 2)
  rw [jsRound]
  linarith

theorem roundSum_bounds :
    ∀ l : List Rat,
      l.sum - l.length / 2 ≤ ((l.map jsRound).sum : Rat) ∧
      ((l.map jsRound).sum : Rat) ≤ l.sum + l.length / 2 := by
  intro l
  induction l with
  | nil => simp
  | cons x l ih =>
    obtain ⟨ihl, ihr⟩ := ih
    simp only [List.map_cons, List.sum_cons, List.length_cons, Int.cast_add,
      Nat.cast_succ]
    constructor
    · linarith [jsRound_le x, le_jsRound x]
    · linarith [jsRound_le x, le_jsRound x]

theorem foldl_add_sum {α : Type} (f : α → Rat) :
    ∀ (l : List α) (a : Rat),
      l.foldl (fun s c => s + f c) a = a + (l.map f).sum := by
  intro l
  induction l with
  | nil => intro a; simp
  | cons x l ih =>
    intro a
    simp only [List.foldl_cons, List.map_cons, List.sum_cons]
    rw [ih]
    ring

theorem grandTotal_eq_sum (visible : List Category) (rolled : DMap) :
    grandTotalVisible visible rolled =
      (visible.map (fun c => (rolled c.id).getD 0)).sum := by
  rw [grandTotalVisible, foldl_add_sum, zero_add]

theorem map_div_mul_sum (T : Rat) :
    ∀ l : List Rat, (l.map (fun r => r / T * 100)).sum = l.sum / T * 100 := by
  intro l
  induction l with
  | nil => simp
  | cons x l ih =>
    simp only [List.map_cons, List.sum_cons]
    rw [ih]
    ring

/-- C6: sharePct is the JavaScript rounding of `100 * rolled / visibleTotal`
where visibleTotal sums the visible members' rolled seconds; when the total is
zero every member's share is zero, and when it is positive the shares over the
set sum to 100 within an error of at most `n - 1`. -/
theorem sharePct_spec (visible : List Category) (rolled : DMap) :
    (grandTotalVisible visible rolled = 0 →
      ∀ c ∈ visible, sharePct (grandTotalVisible visible rolled) rolled c.id = 0) ∧
    (0 < grandTotalVisible visible rolled →
      (∀ c ∈ visible,
        sharePct (grandTotalVisible visible rolled) rolled c.id =
          jsRound (100 * (rolled c.id).getD 0 / grandTotalVisible visible rolled)) ∧
      |((visible.map (fun c =>
          sharePct (grandTotalVisible visible rolled) rolled c.id)).sum : Int) - 100|
        ≤ (visible.length : Int) - 1) := by
  constructor
  · intro h c _
    simp [sharePct, h]
  · intro hT
    have hT0 : grandTotalVisible visible rolled ≠ 0 := ne_of_gt hT
    constructor
    · intro c _
      rw [sharePct, if_neg hT0]
      congr 1
      ring
    · have hmap : visible.map (fun c =>
          sharePct (grandTotalVisible visible rolled) rolled c.id) =
          (visible.map (fun c =>
            (rolled c.id).getD 0 / grandTotalVisible visible rolled * 100)).map
            jsRound := by
        rw [List.map_map]
        refine List.map_congr_left ?_
        intro c _
        simp [sharePct, if_neg hT0, Function.comp]
      have hLsum : (visible.map (fun c =>
          (rolled c.id).getD 0 / grandTotalVisible visible rolled * 100)).sum
          = 100 := by
        have hcomp : visible.map (fun c =>
            (rolled c.id).getD 0 / grandTotalVisible visible rolled * 100) =
            (visible.map (fun c => (rolled c.id).getD 0)).map
              (fun r => r / grandTotalVisible visible rolled * 100) := by
          rw [List.map_map]
          rfl
        rw [hcomp, map_div_mul_sum, ← grandTotal_eq_sum, div_self hT0, one_mul]
      have hlenL : ((visible.map (fun c =>
          (rolled c.id).getD 0 / grandTotalVisible visible rolled * 100)).length : Rat)
          = (visible.length : Rat) := by
        rw [List.length_map]
      have hb := roundSum_bounds (visible.map (fun c =>
        (rolled c.id).getD 0 / grandTotalVisible visible rolled * 100))
      rw [hmap]
      have h1 : (((visible.map (fun c =>
          (rolled c.id).getD 0 / grandTotalVisible visible rolled * 100)).map
          jsRound).sum : Rat) ≤ 100 + (visible.length : Rat) / 2 := by
        have := hb.2
        rw [hLsum, hlenL] at this
        exact this
      have h2 : (100 : Rat) - (visible.length : Rat) / 2 ≤
          (((visible.map (fun c =>
            (rolled c.id).getD 0 / grandTotalVisible visible rolled * 100)).map
            jsRound).sum : Rat) := by
        have := hb.1
        rw [hLsum, hlenL] at this
        exact this
      have hne : visible ≠ [] := by
        intro h
        rw [h] at hT
        simp [grandTotalVisible] at hT
      have hn1 : 1 ≤ visible.length := List.length_pos.mpr hne
      rcases eq_or_lt_of_le hn1 with heq | hlt
      · have hlen1 : (visible.length : Rat) = 1 := by exact_mod_cast heq.symm
        have hlenI : (visible.length : Int) = 1 := by exact_mod_cast heq.symm
        rw [hlen1] at h1 h2
        have hge : 100 ≤ ((visible.map (fun c =>
            (rolled c.id).getD 0 / grandTotalVisible visible rolled * 100)).map
            jsRound).sum := by
          by_contra hcon
          push_neg at hcon
          have hle99 : ((visible.map (fun c =>
              (rolled c.id).getD 0 / grandTotalVisible visible rolled * 100)).map
              jsRound).sum ≤ 99 := by omega
          have : (((visible.map (fun c =>
              (rolled c.id).getD 0 / grandTotalVisible visible rolled * 100)).map
              jsRound).sum : Rat) ≤ 99 := by exact_mod_cast hle99
          linarith
        have hle : ((visible.map (fun c =>
            (rolled c.id).getD 0 / grandTotalVisible visible rolled * 100)).map
            jsRound).sum ≤ 100 := by
          by_contra hcon
          push_neg at hcon
          have hge101 : 101 ≤ ((visible.map (fun c =>
              (rolled c.id).getD 0 / grandTotalVisible visible rolled * 100)).map
              jsRound).sum := by omega
          have : (101 : Rat) ≤ (((visible.map (fun c =>
              (rolled c.id).getD 0 / grandTotalVisible visible rolled * 100)).map
              jsRound).sum : Rat) := by exact_mod_cast hge101
          linarith
        have hS100 : ((visible.map (fun c =>
            (rolled c.id).getD 0 / grandTotalVisible visible rolled * 100)).map
            jsRound).sum = 100 := le_antisymm hle hge
        rw [hS100, hlenI]
        simp
      · have h2q : (2 : Rat) ≤ (visible.length : Rat) := by exact_mod_cast hlt
        rw [abs_le]
        constructor
        · have hq : -((visible.length : Rat) - 1) ≤
              (((visible.map (fun c =>
                (rolled c.id).getD 0 / grandTotalVisible visible rolled * 100)).map
                jsRound).sum : Rat) - 100 := by linarith
          exact_mod_cast hq
        · have hq : (((visible.map (fun c =>
              (rolled c.id).getD 0 / grandTotalVisible visible rolled * 100)).map
              jsRound).sum : Rat) - 100 ≤ (visible.length : Rat) - 1 := by linarith
          exact_mod_cast hq

/-- C6 witness: with rolled totals 10 and 20 on the two visible categories,
the shares 33 and 67 sum to 100 within the allowed error 1. -/
theorem sharePct_spec_witness :
    |((goalCatsAB.map (fun c =>
        sharePct (grandTotalVisible goalCatsAB rolledEx) rolledEx c.id)).sum : Int)
      - 100| ≤ (goalCatsAB.length : Int) - 1 :=
  ((sharePct_spec goalCatsAB rolledEx).2 (by
    simp [grandTotalVisible, goalCatsAB, catGoalA, catGoalB, rolledEx]
    norm_num)).2

theorem memoInv_empty (cm : String → List String) (direct : DMap) :
    MemoInv cm direct emptyDM := by
  intro j v hj
  exact absurd hj (by simp [emptyDM])

theorem setDM_self (m : DMap) (k : String) (v : Rat) :
    (setDM m k v) k = some v := by simp [setDM]

theorem setDM_ne (m : DMap) (k : String) (v : Rat) (j : String) (h : j ≠ k) :
    (setDM m k v) j = m j := by simp [setDM, h]

theorem dfsKids_ok (cm : String → List String) (direct : DMap)
    (rank : String → Nat) (fuel : Nat)
    (hdfs : ∀ id memo, MemoInv cm direct memo → rank id < fuel →
      ∃ m v, dfs cm direct fuel id memo = some (m, v) ∧ MemoInv cm direct m ∧
        MemoLe memo m ∧ m id = some v ∧
        ∀ j, memo j = none → m j ≠ none → rank j ≤ rank id) :
    ∀ (ks : List String) (memo : DMap) (acc : Rat), MemoInv cm direct memo →
      (∀ k ∈ ks, rank k < fuel) →
      ∃ m acc2, dfsKids (dfs cm direct fuel) ks memo acc = some (m, acc2) ∧
        MemoInv cm direct m ∧ MemoLe memo m ∧
        (∀ k ∈ ks, (m k).isSome = true) ∧
        acc2 = acc + (ks.map (fun k => (m k).getD 0)).sum ∧
        ∀ j, memo j = none → m j ≠ none → ∃ k ∈ ks, rank j ≤ rank k := by
  intro ks
  induction ks with
  | nil =>
    intro memo acc hInv _
    refine ⟨memo, acc, rfl, hInv, fun _ _ h => h, by simp, by simp, ?_⟩
    intro j hn hs
    exact absurd hn hs
  | cons k ks ihk =>
    intro memo acc hInv hks
    obtain ⟨m1, v, hd, hInv1, hle1, hmk, hnew1⟩ :=
      hdfs k memo hInv (hks k (by simp))
    obtain ⟨m2, acc2, hd2, hInv2, hle2, hsome2, hacc2, hnew2⟩ :=
      ihk m1 (acc + v) hInv1 (fun x hx => hks x (by simp [hx]))
    have hm2k : m2 k = some v := hle2 k v hmk
    refine ⟨m2, acc2, ?_, hInv2, ?_, ?_, ?_, ?_⟩
    · rw [dfsKids, hd]
      exact hd2
    · exact fun j w h => hle2 j w (hle1 j w h)
    · intro x hx
      rcases List.mem_cons.mp hx with hx | hx
      · subst hx; simp [hm2k]
      · exact hsome2 x hx
    · simp only [List.map_cons, List.sum_cons, hm2k, Option.getD_some]
      rw [hacc2]
      ring
    · intro j hn hs
      cases hm1j : m1 j with
      | some w =>
        have := hnew1 j hn (by simp [hm1j])
        exact ⟨k, by simp, this⟩
      | none =>
        obtain ⟨x, hx, hr⟩ := hnew2 j hm1j hs
        exact ⟨x, by simp [hx], hr⟩

theorem dfs_ok (cm : String → List String) (direct : DMap)
    (rank : String → Nat) (hcm : ∀ id k, k ∈ cm id → rank k < rank id) :
    ∀ (fuel : Nat) (id : String) (memo : DMap), MemoInv cm direct memo →
      rank id < fuel →
      ∃ m v, dfs cm direct fuel id memo = some (m, v) ∧ MemoInv cm direct m ∧
        MemoLe memo m ∧ m id = some v ∧
        ∀ j, memo j = none → m j ≠ none → rank j ≤ rank id := by
  intro fuel
  induction fuel with
  | zero =>
    intro id memo _ h
    exact absurd h (Nat.not_lt_zero _)
  | succ fuel ih =>
    intro id memo hInv hrank
    cases hmemo : memo id with
    | some v =>
      refine ⟨memo, v, ?_, hInv, fun _ _ h => h, hmemo, ?_⟩
      · rw [dfs, hmemo]
      · intro j hn hs
        exact absurd hn hs
    | none =>
      obtain ⟨m, t, hd, hInvm, hlem, hsomem, ht, hnewm⟩ :=
        dfsKids_ok cm direct rank fuel ih (cm id) memo ((direct id).getD 0) hInv
          (fun k hk => lt_of_lt_of_le (hcm id k hk) (Nat.lt_succ_iff.mp hrank))
      have hmid : m id = none := by
        cases h : m id with
        | none => rfl
        | some w =>
          obtain ⟨k, hk, hle⟩ := hnewm id hmemo (by simp [h])
          exact absurd (lt_of_lt_of_le (hcm id k hk) hle) (lt_irrefl _)
      have hnotself : id ∉ cm id := by
        intro h
        exact absurd (hcm id id h) (lt_irrefl _)
      refine ⟨setDM m id t, t, ?_, ?_, ?_, setDM_self m id t, ?_⟩
      · rw [dfs, hmemo, hd]
      · -- invariant for the extended memo
        intro j v hj
        by_cases hji : j = id
        · subst hji
          rw [setDM_self] at hj
          have hv : v = t := (Option.some.inj hj).symm
          constructor
          · intro k hk
            have hkid : k ≠ j := by
              intro h
              subst h
              exact hnotself hk
            rw [setDM_ne m j t k hkid]
            exact hsomem k hk
          · have hmap : (cm j).map (fun k => ((setDM m j t) k).getD 0) =
                (cm j).map (fun k => (m k).getD 0) := by
              refine List.map_congr_left ?_
              intro k hk
              have hkid : k ≠ j := by
                intro h
                subst h
                exact hnotself hk
              rw [setDM_ne m j t k hkid]
            rw [hv, hmap]
            exact ht
        · rw [setDM_ne m id t j hji] at hj
          obtain ⟨hcl, heq⟩ := hInvm j v hj
          constructor
          · intro k hk
            have hkid : k ≠ id := by
              intro h
              have hks := hcl k hk
              rw [h, hmid] at hks
              simp at hks
            rw [setDM_ne m id t k hkid]
            exact hcl k hk
          · have hmap : (cm j).map (fun k => ((setDM m id t) k).getD 0) =
                (cm j).map (fun k => (m k).getD 0) := by
              refine List.map_congr_left ?_
              intro k hk
              have hkid : k ≠ id := by
                intro h
                have hks := hcl k hk
                rw [h, hmid] at hks
                simp at hks
              rw [setDM_ne m id t k hkid]
            rw [hmap]
            exact heq
      · intro j w hjw
        have hji : j ≠ id := by
          intro h
          subst h
          rw [hjw] at hmemo
          cases hmemo
        rw [setDM_ne m id t j hji]
        exact hlem j w hjw
      · intro j hn hs
        by_cases hji : j = id
        · subst hji; exact le_refl _
        · rw [setDM_ne m id t j hji] at hs
          obtain ⟨k, hk, hle⟩ := hnewm j hn hs
          exact le_of_lt (lt_of_le_of_lt hle (hcm id k hk))

theorem runAll_ok (cm : String → List String) (direct : DMap)
    (rank : String → Nat) (hcm : ∀ id k, k ∈ cm id → rank k < rank id)
    (fuel : Nat) :
    ∀ (ids : List String) (memo : DMap), MemoInv cm direct memo →
      (∀ id ∈ ids, rank id < fuel) →
      ∃ m, runAll cm direct fuel ids memo = some m ∧ MemoInv cm direct m ∧
        MemoLe memo m ∧ ∀ id ∈ ids, (m id).isSome = true := by
  intro ids
  induction ids with
  | nil =>
    intro memo hInv _
    exact ⟨memo, rfl, hInv, fun _ _ h => h, by simp⟩
  | cons id ids ih =>
    intro memo hInv hids
    obtain ⟨m1, v, hd, hInv1, hle1, hm1, _⟩ :=
      dfs_ok cm direct rank hcm fuel id memo hInv (hids id (by simp))
    obtain ⟨m2, hd2, hInv2, hle2, hsome2⟩ :=
      ih m1 hInv1 (fun x hx => hids x (by simp [hx]))
    refine ⟨m2, ?_, hInv2, fun j w h => hle2 j w (hle1 j w h), ?_⟩
    · rw [runAll, hd]
      exact hd2
    · intro x hx
      rcases List.mem_cons.mp hx with hx | hx
      · subst hx
        have := hle2 x v hm1
        simp [this]
      · exact hsome2 x hx

theorem mem_firstDedupAux :
    ∀ (l seen : List String) (x : String), x ∈ firstDedupAux seen l → x ∈ l := by
  intro l
  induction l with
  | nil => intro seen x h; exact absurd h (by simp [firstDedupAux])
  | cons y l ih =>
    intro seen x h
    rw [firstDedupAux] at h
    by_cases hy : y ∈ seen
    · rw [if_pos hy] at h
      exact List.mem_cons_of_mem y (ih seen x h)
    · rw [if_neg hy] at h
      rcases List.mem_cons.mp h with h | h
      · simp [h]
      · exact List.mem_cons_of_mem y (ih (y :: seen) x h)

theorem firstDedupAux_mem :
    ∀ (l seen : List String) (x : String), x ∈ l → x ∉ seen →
      x ∈ firstDedupAux seen l := by
  intro l
  induction l with
  | nil => intro seen x h _; exact absurd h (by simp)
  | cons y l ih =>
    intro seen x h hseen
    rw [firstDedupAux]
    by_cases hy : y ∈ seen
    · rw [if_pos hy]
      rcases List.mem_cons.mp h with h | h
      · subst h; exact absurd hy hseen
      · exact ih seen x h hseen
    · rw [if_neg hy]
      by_cases hxy : x = y
      · subst hxy; simp
      · rcases List.mem_cons.mp h with h | h
        · exact absurd h hxy
        · exact List.mem_cons_of_mem y
            (ih (y :: seen) x h (by simp [hxy, hseen]))

theorem mem_childMap (cats : List Category) (id k : String) :
    k ∈ childMap cats id ↔ ∃ c ∈ cats, childKey c = id ∧ c.id = k := by
  rw [childMap]
  simp only [List.mem_map, List.mem_filter, decide_eq_true_eq]
  constructor
  · rintro ⟨c, ⟨hc, hkey⟩, hid⟩
    exact ⟨c, hc, hkey, hid⟩
  · rintro ⟨c, hc, hkey, hid⟩
    exact ⟨c, ⟨hc, hkey⟩, hid⟩

/-- C4: on every acyclic snapshot and every direct-seconds mapping,
rollupSeconds succeeds and returns a mapping that is defined for every known
category id and satisfies the rollup recurrence
`rolled(id) = direct(id) + Σ rolled(child)` over the direct children of id;
in particular a category with no children gets exactly its direct seconds. -/
theorem rollup_recurrence (cats : List Category) (direct : DMap)
    (h : AcyclicCats cats) :
    ∃ rolled, rollupSeconds cats direct = some rolled ∧
      (∀ c ∈ cats, ((rolled c.id).isSome : Bool) = true) ∧
      (∀ c ∈ cats, (rolled c.id).getD 0 =
        (direct c.id).getD 0 +
          ((childMap cats c.id).map (fun k => (rolled k).getD 0)).sum) ∧
      (∀ c ∈ cats, childMap cats c.id = [] →
        (rolled c.id).getD 0 = (direct c.id).getD 0) := by
  obtain ⟨rank, hbound, hdesc⟩ := h
  have hcm : ∀ id k, k ∈ childMap cats id → rank k < rank id := by
    intro id k hk
    obtain ⟨c, hc, hkey, hid⟩ := (mem_childMap cats id k).mp hk
    rw [← hid, ← hkey]
    exact hdesc c hc
  have hids : ∀ id ∈ firstDedup (cats.map (fun c => c.id)),
      rank id < cats.length + 1 := by
    intro id hid
    have hmem : id ∈ cats.map (fun c => c.id) :=
      mem_firstDedupAux _ [] id hid
    obtain ⟨c, hc, hcid⟩ := List.mem_map.mp hmem
    rw [← hcid]
    exact Nat.lt_succ_of_le (hbound c hc)
  obtain ⟨m, hrun, hInv, _, hsome⟩ :=
    runAll_ok (childMap cats) direct rank hcm (cats.length + 1)
      (firstDedup (cats.map (fun c => c.id))) emptyDM
      (memoInv_empty _ _) hids
  have hin : ∀ c ∈ cats, (m c.id).isSome = true := by
    intro c hc
    refine hsome c.id ?_
    refine firstDedupAux_mem _ [] c.id ?_ (by simp)
    exact List.mem_map.mpr ⟨c, hc, rfl⟩
  refine ⟨m, hrun, hin, ?_, ?_⟩
  · intro c hc
    obtain ⟨v, hv⟩ := Option.isSome_iff_exists.mp (hin c hc)
    have heq := (hInv c.id v hv).2
    rw [hv]
    exact heq
  · intro c hc hleaf
    obtain ⟨v, hv⟩ := Option.isSome_iff_exists.mp (hin c hc)
    have heq := (hInv c.id v hv).2
    rw [hleaf] at heq
    simp at heq
    rw [hv]
    exact heq

/-- C4 witness: the parent-with-two-children snapshot with direct seconds
5, 7, 11 satisfies the recurrence (the parent rolls up to 23). -/
theorem rollup_recurrence_witness :
    ∃ rolled, rollupSeconds pcCats pcDirect = some rolled ∧
      (∀ c ∈ pcCats, ((rolled c.id).isSome : Bool) = true) ∧
      (∀ c ∈ pcCats, (rolled c.id).getD 0 =
        (pcDirect c.id).getD 0 +
          ((childMap pcCats c.id).map (fun k => (rolled k).getD 0)).sum) ∧
      (∀ c ∈ pcCats, childMap pcCats c.id = [] →
        (rolled c.id).getD 0 = (pcDirect c.id).getD 0) :=
  rollup_recurrence pcCats pcDirect ⟨rankPC, by decide, by decide⟩

theorem digitChar10_range (d : Nat) :
    48 ≤ (digitChar10 d).toNat ∧ (digitChar10 d).toNat ≤ 57 := by
  unfold digitChar10
  repeat' split
  all_goals decide

theorem natStrCore_digits :
    ∀ (fuel n : Nat), ∀ c ∈ natStrCore fuel n,
      48 ≤ c.toNat ∧ c.toNat ≤ 57 := by
  intro fuel
  induction fuel with
  | zero => intro n c hc; exact absurd hc (by simp [natStrCore])
  | succ fuel ih =>
    intro n c hc
    rw [natStrCore] at hc
    by_cases h10 : n < 10
    · rw [if_pos h10] at hc
      simp only [List.mem_singleton] at hc
      rw [hc]
      exact digitChar10_range n
    · rw [if_neg h10] at hc
      rcases List.mem_append.mp hc with hc | hc
      · exact ih (n / 10) c hc
      · simp only [List.mem_singleton] at hc
        rw [hc]
        exact digitChar10_range (n % 10)

theorem natStr_digits (n : Nat) :
    ∀ c ∈ (natStr n).data, 48 ≤ c.toNat ∧ c.toNat ≤ 57 := by
  intro c hc
  exact natStrCore_digits (n + 1) n c hc

theorem strContains_true_of (s pat : String) (h : pat.data <:+: s.data) :
    strContains s pat = true := by
  rw [strContains, List.any_eq_true]
  obtain ⟨t, hpre, hsuf⟩ := List.infix_iff_prefix_suffix.mp h
  exact ⟨t, (List.mem_tails t s.data).mpr hsuf,
    List.isPrefixOf_iff_prefix.mpr hpre⟩

theorem strContains_false_of (s pat : String) (c : Char) (hc : c ∈ pat.data)
    (hs : c ∉ s.data) : strContains s pat = false := by
  rw [Bool.eq_false_iff]
  intro h
  rw [strContains, List.any_eq_true] at h
  obtain ⟨t, ht, hpre⟩ := h
  have hinf : pat.data <:+: s.data :=
    List.infix_iff_prefix_suffix.mpr
      ⟨t, List.isPrefixOf_iff_prefix.mp hpre, (List.mem_tails t s.data).mp ht⟩
  exact hs (hinf.subset hc)

theorem not_mem_pluralUnit (n : Nat) (u : String) (c : Char)
    (h57 : 57 < c.toNat) (hsp : c ≠ ' ') (hu : c ∉ u.data) (hs : c ≠ 's') :
    c ∉ (pluralUnit n u).data := by
  intro hmem
  simp only [pluralUnit, String.data_append, List.mem_append] at hmem
  rcases hmem with ((h | h) | h) | h
  · exact absurd (natStr_digits n c h).2 (by omega)
  · have hc : c = ' ' := by simpa using h
    exact hsp hc
  · exact hu h
  · by_cases h1 : n = 1
    · rw [if_pos h1] at h
      simp at h
    · rw [if_neg h1] at h
      have hc : c = 's' := by simpa using h
      exact hs hc

theorem not_mem_natStr_append (n : Nat) (u : String) (c : Char)
    (h57 : 57 < c.toNat) (hu : c ∉ u.data) : c ∉ (natStr n ++ u).data := by
  intro hmem
  simp only [String.data_append, List.mem_append] at hmem
  rcases hmem with h | h
  · exact absurd (natStr_digits n c h).2 (by omega)
  · exact hu h

theorem pluralUnit_contains_unit (n : Nat) (u : String) :
    strContains (pluralUnit n u) u = true := by
  refine strContains_true_of _ _ ?_
  refine ⟨(natStr n).data ++ (" " : String).data,
    ((if n = 1 then "" else "s" : String)).data, ?_⟩
  simp [pluralUnit, String.data_append, List.append_assoc]

theorem yrPart_not_day (n : Nat) :
    strContains (pluralUnit n "yr") "day" = false :=
  strContains_false_of _ _ 'd' (by decide)
    (not_mem_pluralUnit n "yr" 'd' (by decide) (by decide) (by decide)
      (by decide))

theorem hrPart_not_yr (n : Nat) :
    strContains (pluralUnit n "hr") "yr" = false :=
  strContains_false_of _ _ 'y' (by decide)
    (not_mem_pluralUnit n "hr" 'y' (by decide) (by decide) (by decide)
      (by decide))

theorem hrPart_not_day (n : Nat) :
    strContains (pluralUnit n "hr") "day" = false :=
  strContains_false_of _ _ 'd' (by decide)
    (not_mem_pluralUnit n "hr" 'd' (by decide) (by decide) (by decide)
      (by decide))

theorem minPart_not_yr (n : Nat) :
    strContains (natStr n ++ " min") "yr" = false :=
  strContains_false_of _ _ 'y' (by decide)
    (not_mem_natStr_append n " min" 'y' (by decide) (by decide))

theorem minPart_not_day (n : Nat) :
    strContains (natStr n ++ " min") "day" = false :=
  strContains_false_of _ _ 'd' (by decide)
    (not_mem_natStr_append n " min" 'd' (by decide) (by decide))

theorem partsHMS_eq_partsSpec (y d h m s : Nat) :
    partsHMS y d h m s = partsSpec y d h m s := by
  by_cases hy : y = 0 <;> by_cases hd : d = 0 <;> by_cases hh : h = 0 <;>
    by_cases hm : m = 0 <;>
    simp [partsHMS, partsSpec, hy, hd, hh, hm, pluralUnit_contains_unit,
      yrPart_not_day, hrPart_not_yr, hrPart_not_day, minPart_not_yr,
      minPart_not_day]

/-- C8 amended: formatHMS realises the corrected unit table formatSpec: at
least a year shows years then — when the leftover days are nonzero — the day
component twice (three parts, not two), otherwise hours when nonzero; at
least a day shows days then hours when nonzero; at least an hour shows hours
then minutes (always); at least a minute shows minutes then seconds (always);
otherwise seconds alone; only the yr, day and hr labels are pluralized (when
the count is not one) while min and sec always stay singular. -/
theorem formatHMS_eq_formatSpec (q : Rat) : formatHMS q = formatSpec q := by
  simp only [formatHMS, formatSpec]
  rw [partsHMS_eq_partsSpec]

/-- C8 counterexample: one year plus one day renders as three units
"1 yr 1 day 1 day" (the day component is pushed a second time by the
second-part block), not the two-unit "1 yr 1 day" of the claimed table. -/
theorem formatHMS_counterexample :
    formatHMS 31622400 = "1 yr 1 day 1 day" ∧
    "1 yr 1 day 1 day" ≠ "1 yr 1 day" := by
  constructor
  · have hfloor : ⌊(31622400 : Rat)⌋ = (31622400 : Int) := by norm_num
    simp only [formatHMS, hfloor]
    decide
  · decide

/-- C8 witness: the amended table applied at 26 hours. -/
theorem formatHMS_eq_formatSpec_witness : formatHMS 93600 = formatSpec 93600 :=
  formatHMS_eq_formatSpec 93600

end Tracer
